import Mathlib

/-!
Verification development for the ChatBuddy Telegram bot (Go sources).

The repository holds several near-duplicate revisions of the same bot; the
definitions below are shallow embeddings of its Go functions, with external
collaborators (the Telegram API, the text-generation backend, JSON
decoding) passed in as opaque inputs.  Go strings are byte sequences, so
outbound message text is modelled as `List Nat` (one `Nat` per byte), while
text inspected character-wise by `extractJSON` is modelled as `List Char`.
Recursions driven by a decreasing slice are implemented with a fuel
argument equal to the input length, mirroring the Go loop counters and
keeping every function structurally recursive (hence kernel-evaluable).
The two in-memory stores (`activeChannels`, `activePolls`) are modelled as
functions to `Option`, matching Go map semantics.
-/

namespace ChatBuddy

/-- One Telegram message produced by the chunked send.  `replyTo = 0` is the
Go zero value, meaning "no reply linkage". -/
structure ChunkMsg where
  chatID : Int
  text : List Nat
  replyTo : Int
deriving DecidableEq

/-- Fuel-driven core of `sendChunks`; the fuel starts at `text.length`, so the
`0, _ :: _` case is never reached. -/
def sendChunksAux (c r : Int) : Nat → List Nat → List ChunkMsg
  | _, [] => []
  | 0, _ :: _ => []
  | fuel + 1, x :: xs =>
    ⟨c, (x :: xs).take 4096, r⟩ :: sendChunksAux c r fuel ((x :: xs).drop 4096)

/-- Embedding of `sendChunks` (main.go 760-773, part_001 668-680) and the
identical `sendResponse` (main.go 392-408): split the outbound byte string
into consecutive 4096-byte slices, each sent with the original message's
reply-to id. -/
def sendChunks (c : Int) (text : List Nat) (r : Int) : List ChunkMsg :=
  sendChunksAux c r text.length text

/-- Does `pat` occur at the start of `s`? (Go's strings.HasPrefix check used
while scanning in strings.Replace.) -/
def startsWith : List Char → List Char → Bool
  | [], _ => true
  | _ :: _, [] => false
  | p :: ps, c :: cs => p = c && startsWith ps cs

/-- Fuel-driven core of Go's `strings.Replace(s, old, new, -1)`: scan left to
right, replacing non-overlapping occurrences.  Fuel starts at `s.length`, so
the `0, _` case is never reached. -/
def replaceAllAux (pat rep : List Char) : Nat → List Char → List Char
  | _, [] => []
  | 0, s => s
  | fuel + 1, c :: cs =>
    if pat ≠ [] ∧ startsWith pat (c :: cs) then
      rep ++ replaceAllAux pat rep fuel ((c :: cs).drop pat.length)
    else
      c :: replaceAllAux pat rep fuel cs

/-- Go's `strings.Replace(s, old, new, -1)`. -/
def goReplaceAll (pat rep s : List Char) : List Char :=
  replaceAllAux pat rep s.length s

/-- `strings.Index(s, string(c))` for a single character. -/
def idxOfChar (c : Char) : List Char → Option Nat
  | [] => none
  | x :: xs => if x = c then some 0 else (idxOfChar c xs).map (· + 1)

/-- `strings.LastIndex(s, string(c))` for a single character. -/
def lastIdxOfChar (c : Char) (s : List Char) : Option Nat :=
  match idxOfChar c s.reverse with
  | none => none
  | some i => some (s.length - 1 - i)

/-- The brace-window step of `extractJSON`: find the first `{` and the last
`}`; if either is missing or inverted return the empty string, else return
the inclusive slice. -/
def braceSlice (t : List Char) : List Char :=
  match idxOfChar '\x7b' t with
  | none => []
  | some si =>
    match lastIdxOfChar '\x7d' t with
    | none => []
    | some ei => if ei < si then [] else (t.drop si).take (ei + 1 - si)

/-- Embedding of `extractJSON` (part_001 614-633): strip "```json" and "```"
markers, then slice from the first `{` to the last `}`. -/
def extractJSON (text : List Char) : List Char :=
  braceSlice (goReplaceAll "```".data [] (goReplaceAll "```json".data [] text))

-- fuel irrelevance

structure QuizData where
  Question : String
  Choices : List String
  AnswerIndex : Int
deriving DecidableEq

/-- Validation stage of `generateQuiz` (part_001 596-609): after JSON
decoding, reject an empty question, a choice count other than 4, and an
answer index outside [0,3], each with its own `fmt.Errorf` message. -/
def generateQuizValidate (q : QuizData) : Except String QuizData :=
  if q.Question = "" then .error "quiz has empty question field"
  else if q.Choices.length ≠ 4 then
    .error ("expected 4 choices, got " ++ toString q.Choices.length)
  else if q.AnswerIndex < 0 ∨ q.AnswerIndex > 3 then
    .error ("answer index " ++ toString q.AnswerIndex ++ " out of range")
  else .ok q

/-- `PollData` (main.go 445-450, part_001 18-23): the registry entry kept
per active poll. -/
structure PollData where
  ChatID : Int
  MessageID : Int
  CorrectOption : Int
  Options : List String
deriving DecidableEq

/-- One outbound Telegram message: destination chat, text, and the
`ReplyToMessageID` it is addressed to. -/
structure SentMsg where
  chatID : Int
  text : String
  replyTo : Int
deriving DecidableEq

/-- The reveal message composed in `Run` (main.go 603-607):
`"✅ The correct answer is option %d: %s"` with the 1-indexed option and its
text. -/
def revealText (pd : PollData) : String :=
  "✅ The correct answer is option " ++ toString (pd.CorrectOption + 1) ++ ": " ++
    pd.Options.getD pd.CorrectOption.toNat ""

/-- The poll-answer branch of `Run` (main.go 601-614, part_001 157-170):
look up the poll id in `activePolls`; if absent do nothing; if present send
the reveal as a reply to the anchor message and delete the entry.  `none`
models the Go runtime panic raised by `pd.Options[pd.CorrectOption]` when
the stored index is out of range. -/
def handlePollAnswer (polls : String → Option PollData) (pollID : String) :
    Option ((String → Option PollData) × List SentMsg) :=
  match polls pollID with
  | none => some (polls, [])
  | some pd =>
    if 0 ≤ pd.CorrectOption ∧ pd.CorrectOption.toNat < pd.Options.length then
      some (fun k => if k = pollID then none else polls k,
        [⟨pd.ChatID, revealText pd, pd.MessageID⟩])
    else
      none

/-- Outcome of one `GetUpdates` call in `Run` (main.go 546-638): a
platform delivery conflict, another transient error, or success. -/
inductive FetchResult
  | conflict
  | failure
  | success
deriving DecidableEq

/-- Observable side effects of one loop iteration of `Run`. -/
inductive BotAction
  | clearWebhook
  | sleepMs (ms : Nat)
  | processBatch
deriving DecidableEq

/-- `baseDelay = 5 * time.Second` (main.go 553), in milliseconds. -/
def baseDelayMs : Nat := 5000

/-- `maxDelay = 60 * time.Second` (main.go 554), in milliseconds. -/
def maxDelayMs : Nat := 60000

/-- One iteration of the error handling in `Run` (main.go 558-593): on a
conflict, clear the webhook, sleep the current delay, then double it with a
ceiling; on another error sleep 3s with the delay unchanged; on success
reset the delay to the seed and process the batch (then pause 100ms). -/
def runFetchStep (delay : Nat) (r : FetchResult) : Nat × List BotAction :=
  match r with
  | .conflict =>
    (if 2 * delay > maxDelayMs then maxDelayMs else 2 * delay,
     [.clearWebhook, .sleepMs delay])
  | .failure => (delay, [.sleepMs 3000])
  | .success => (baseDelayMs, [.processBatch, .sleepMs 100])

/-- The delay before the n-th consecutive conflict retry, starting from
the seed. -/
def conflictDelay : Nat → Nat
  | 0 => baseDelayMs
  | n + 1 => (runFetchStep (conflictDelay n) .conflict).1

/-- Result of one `bs.api.Send(pollCfg)` (part_001 646-664): an error, a
sent message whose `Poll` field is nil, or a sent poll with its
platform-issued poll id and message id. -/
inductive SendOutcome
  | err
  | sentNoPoll (messageID : Int)
  | sent (pollID : String) (messageID : Int)
deriving DecidableEq

/-- Observable outcome of one scheduled tick: the updated `activePolls`
registry, how many generation calls were made, and which chat ids a poll
send was attempted for, in order. -/
structure TickResult where
  polls : String → Option PollData
  genCalls : Nat
  attempts : List Int

/-- One iteration of the fan-out loop over `activeChannels`
(part_001 476-505, main.go 736-757): attempt the send; on success with a
poll id, register the `PollData`; in every case the destination counts as
attempted and the loop continues. -/
def fanoutStep (q : QuizData) (send : Int → SendOutcome)
    (acc : (String → Option PollData) × List Int) (chatID : Int) :
    (String → Option PollData) × List Int :=
  (match send chatID with
   | .sent pid mid =>
     fun k => if k = pid then some ⟨chatID, mid, q.AnswerIndex, q.Choices⟩ else acc.1 k
   | _ => acc.1,
   acc.2 ++ [chatID])

/-- Embedding of `sendHourlyPoll` (part_001 430-506): skip the tick when
no channel is active, otherwise generate once, parse, validate (question
nonempty, exactly 4 choices, index in [0,3]), and fan out to every active
channel.  Generation and JSON decoding are opaque inputs (`gen`, `parse`);
`send` is the platform send per chat. -/
def sendHourlyPoll (channels : List Int) (gen : Option String)
    (parse : String → Option QuizData) (send : Int → SendOutcome)
    (polls : String → Option PollData) : TickResult :=
  if channels.length = 0 then ⟨polls, 0, []⟩
  else
    match gen with
    | none => ⟨polls, 1, []⟩
    | some raw =>
      match parse raw with
      | none => ⟨polls, 1, []⟩
      | some q =>
        if q.Question = "" ∨ q.Choices.length ≠ 4 ∨ q.AnswerIndex < 0 ∨ q.AnswerIndex > 3 then
          ⟨polls, 1, []⟩
        else
          let r := channels.foldl (fanoutStep q send) (polls, [])
          ⟨r.1, 1, r.2⟩

/-- Embedding of the `sendHourlyPoll` revision in main.go (706-758):
identical to `sendHourlyPoll` except that the parsed quiz is registered
without any validation. -/
def sendHourlyPollMain (channels : List Int) (gen : Option String)
    (parse : String → Option QuizData) (send : Int → SendOutcome)
    (polls : String → Option PollData) : TickResult :=
  if channels.length = 0 then ⟨polls, 0, []⟩
  else
    match gen with
    | none => ⟨polls, 1, []⟩
    | some raw =>
      match parse raw with
      | none => ⟨polls, 1, []⟩
      | some q =>
        let r := channels.foldl (fanoutStep q send) (polls, [])
        ⟨r.1, 1, r.2⟩

lemma sendChunksAux_spec (c r : Int) :
    ∀ (fuel : Nat) (t : List Nat), t.length ≤ fuel →
      ((sendChunksAux c r fuel t).map ChunkMsg.text).flatten = t ∧
      ∀ m ∈ sendChunksAux c r fuel t,
        m.text.length ≤ 4096 ∧ m.replyTo = r ∧ m.chatID = c := by
  intro fuel
  induction fuel with
  | zero =>
    intro t ht
    have : t = [] := List.eq_nil_of_length_eq_zero (Nat.le_zero.mp ht)
    subst this
    simp [sendChunksAux]
  | succ n ih =>
    intro t ht
    match t with
    | [] => simp [sendChunksAux]
    | x :: xs =>
      have hlen : ((x :: xs).drop 4096).length ≤ n := by
        simp only [List.length_drop, List.length_cons]
        simp only [List.length_cons] at ht
        omega
      obtain ⟨ihjoin, ihmem⟩ := ih ((x :: xs).drop 4096) hlen
      constructor
      · simp only [sendChunksAux, List.map_cons, List.flatten_cons]
        rw [ihjoin]
        exact List.take_append_drop 4096 (x :: xs)
      · intro m hm
        simp only [sendChunksAux, List.mem_cons] at hm
        rcases hm with h | h
        · subst h
          exact ⟨List.length_take_le 4096 (x :: xs), rfl, rfl⟩
        · exact ihmem m h

lemma sendChunks_join (c r : Int) (t : List Nat) :
    ((sendChunks c t r).map ChunkMsg.text).flatten = t :=
  (sendChunksAux_spec c r t.length t le_rfl).1

lemma sendChunks_mem (c r : Int) (t : List Nat) :
    ∀ m ∈ sendChunks c t r, m.text.length ≤ 4096 ∧ m.replyTo = r ∧ m.chatID = c :=
  (sendChunksAux_spec c r t.length t le_rfl).2

lemma sendChunks_nil (c r : Int) : sendChunks c [] r = [] := rfl

lemma sendChunksAux_congr (c r : Int) :
    ∀ (fuel fuel' : Nat) (t : List Nat), t.length ≤ fuel → t.length ≤ fuel' →
      sendChunksAux c r fuel t = sendChunksAux c r fuel' t := by
  intro fuel
  induction fuel with
  | zero =>
    intro fuel' t ht _
    have : t = [] := List.eq_nil_of_length_eq_zero (Nat.le_zero.mp ht)
    subst this
    cases fuel' <;> rfl
  | succ n ih =>
    intro fuel' t ht ht'
    match t with
    | [] => cases fuel' <;> rfl
    | x :: xs =>
      match fuel' with
      | 0 => simp at ht'
      | m + 1 =>
        simp only [sendChunksAux]
        congr 1
        apply ih
        · simp only [List.length_drop, List.length_cons]
          simp only [List.length_cons] at ht
          omega
        · simp only [List.length_drop, List.length_cons]
          simp only [List.length_cons] at ht'
          omega

/-- One unfolding of the Go loop: a nonempty text yields the first 4096-byte
slice followed by the chunks of the rest. -/
lemma sendChunks_cons (c r : Int) (t : List Nat) (h : t ≠ []) :
    sendChunks c t r = ⟨c, t.take 4096, r⟩ :: sendChunks c (t.drop 4096) r := by
  match t, h with
  | x :: xs, _ =>
    show sendChunksAux c r (x :: xs).length (x :: xs) = _
    simp only [List.length_cons, sendChunksAux]
    congr 1
    apply sendChunksAux_congr
    · simp only [List.length_drop, List.length_cons]; omega
    · exact le_rfl

/-- Concrete evaluation: a 9000-byte text is sent as three chunks of
4096, 4096 and 808 bytes, each carrying the reply-to id `r`. -/
lemma sendChunks_9000 (c r : Int) :
    sendChunks c (List.replicate 9000 97) r =
      [⟨c, List.replicate 4096 97, r⟩, ⟨c, List.replicate 4096 97, r⟩,
       ⟨c, List.replicate 808 97, r⟩] := by
  rw [sendChunks_cons _ _ _ (List.ne_nil_of_length_pos (by rw [List.length_replicate]; norm_num)),
    List.take_replicate, List.drop_replicate]
  norm_num
  rw [sendChunks_cons _ _ _ (List.ne_nil_of_length_pos (by rw [List.length_replicate]; norm_num)),
    List.take_replicate, List.drop_replicate]
  norm_num
  rw [sendChunks_cons _ _ _ (List.ne_nil_of_length_pos (by rw [List.length_replicate]; norm_num)),
    List.take_replicate, List.drop_replicate]
  norm_num
  rfl

lemma replaceAllAux_congr (pat rep : List Char) :
    ∀ (fuel fuel' : Nat) (s : List Char), s.length ≤ fuel → s.length ≤ fuel' →
      replaceAllAux pat rep fuel s = replaceAllAux pat rep fuel' s := by
  intro fuel
  induction fuel with
  | zero =>
    intro fuel' s hs _
    have : s = [] := List.eq_nil_of_length_eq_zero (Nat.le_zero.mp hs)
    subst this
    cases fuel' <;> rfl
  | succ n ih =>
    intro fuel' s hs hs'
    match s with
    | [] => cases fuel' <;> rfl
    | c :: cs =>
      match fuel' with
      | 0 => simp at hs'
      | m + 1 =>
        simp only [replaceAllAux]
        have e1 : (c :: cs).length = cs.length + 1 := rfl
        by_cases hp : pat ≠ [] ∧ startsWith pat (c :: cs)
        · rw [if_pos hp, if_pos hp]
          congr 1
          have hpl : 1 ≤ pat.length := by
            cases pat with
            | nil => exact absurd rfl hp.1
            | cons a as => simp
          apply ih <;> simp only [List.length_drop] <;> omega
        · rw [if_neg hp, if_neg hp]
          congr 1
          apply ih <;> omega

lemma goReplaceAll_nil (pat rep : List Char) : goReplaceAll pat rep [] = [] := rfl

lemma startsWith_self_append (pat rest : List Char) : startsWith pat (pat ++ rest) = true := by
  induction pat with
  | nil => rfl
  | cons p ps ih => simp [startsWith, ih]

/-- A match at the head is consumed. -/
lemma goReplaceAll_cons_match (pat rep rest : List Char) (h : pat ≠ []) :
    goReplaceAll pat rep (pat ++ rest) = rep ++ goReplaceAll pat rep rest := by
  match pat, h with
  | p :: ps, _ =>
    show replaceAllAux (p :: ps) rep ((p :: ps) ++ rest).length ((p :: ps) ++ rest) = _
    have hlen : ((p :: ps) ++ rest).length = (ps ++ rest).length + 1 := by simp
    rw [hlen]
    simp only [List.cons_append, replaceAllAux]
    rw [if_pos ⟨by simp, by simpa using startsWith_self_append (p :: ps) rest⟩]
    congr 1
    simp only [List.length_cons, List.drop_succ_cons, List.append_eq]
    rw [List.drop_left]
    apply replaceAllAux_congr
    · simp
    · exact le_rfl

/-- A head character that cannot start a match is kept. -/
lemma goReplaceAll_cons_skip (p : Char) (ps rep : List Char) (c : Char) (cs : List Char)
    (h : c ≠ p) :
    goReplaceAll (p :: ps) rep (c :: cs) = c :: goReplaceAll (p :: ps) rep cs := by
  show replaceAllAux (p :: ps) rep (c :: cs).length (c :: cs) = _
  simp only [List.length_cons, replaceAllAux]
  rw [if_neg]
  · rfl
  · rintro ⟨-, hsw⟩
    simp [startsWith] at hsw
    exact h hsw.1.symm

/-- Characters that cannot start a match pass through unchanged. -/
lemma goReplaceAll_append_skip (p : Char) (ps rep : List Char) (xs ys : List Char)
    (h : ∀ x ∈ xs, x ≠ p) :
    goReplaceAll (p :: ps) rep (xs ++ ys) = xs ++ goReplaceAll (p :: ps) rep ys := by
  induction xs with
  | nil => rfl
  | cons x xt ih =>
    rw [List.cons_append, goReplaceAll_cons_skip _ _ _ _ _ (h x (by simp)),
      ih (fun a ha => h a (by simp [ha]))]
    rfl

/-- On a backtick-free string both fence-stripping passes are the identity. -/
lemma goReplaceAll_id_of_not_mem (p : Char) (ps rep : List Char) (s : List Char)
    (h : ∀ x ∈ s, x ≠ p) :
    goReplaceAll (p :: ps) rep s = s := by
  have := goReplaceAll_append_skip p ps rep s [] h
  simpa [goReplaceAll_nil] using this

lemma idxOfChar_cons_self (c : Char) (xs : List Char) : idxOfChar c (c :: xs) = some 0 := by
  simp [idxOfChar]

lemma idxOfChar_append_of_not_mem (c : Char) (pre s : List Char) (h : ∀ x ∈ pre, x ≠ c) :
    idxOfChar c (pre ++ s) = (idxOfChar c s).map (· + pre.length) := by
  induction pre with
  | nil => simp
  | cons x xt ih =>
    simp only [List.cons_append, idxOfChar, List.append_eq]
    rw [if_neg (h x (by simp)), ih (fun a ha => h a (by simp [ha]))]
    cases idxOfChar c s with
    | none => rfl
    | some i =>
      simp only [Option.map_some', List.length_cons]
      congr 1

lemma lastIdxOfChar_eq (c : Char) (t : List Char) (i : Nat)
    (h : idxOfChar c t.reverse = some i) :
    lastIdxOfChar c t = some (t.length - 1 - i) := by
  rw [lastIdxOfChar, h]

lemma braceSlice_of_some (t : List Char) (si ei : Nat)
    (h1 : idxOfChar '\x7b' t = some si) (h2 : lastIdxOfChar '\x7d' t = some ei) :
    braceSlice t = if ei < si then [] else (t.drop si).take (ei + 1 - si) := by
  rw [braceSlice, h1, h2]

/-- Slicing from the first `\x7b` to the last `\x7d`: a brace-delimited
window is recovered exactly when the leading text contains no `\x7b` and the
trailing text no `\x7d`. -/
lemma braceSlice_window (pre mid post : List Char)
    (hpre : '\x7b' ∉ pre) (hpost : '\x7d' ∉ post) :
    braceSlice (pre ++ ('\x7b' :: (mid ++ ['\x7d'])) ++ post) =
      '\x7b' :: (mid ++ ['\x7d']) := by
  have hassoc : pre ++ ('\x7b' :: (mid ++ ['\x7d'])) ++ post =
      pre ++ (('\x7b' :: (mid ++ ['\x7d'])) ++ post) := by rw [List.append_assoc]
  have hsi : idxOfChar '\x7b' (pre ++ ('\x7b' :: (mid ++ ['\x7d'])) ++ post) =
      some pre.length := by
    rw [hassoc, idxOfChar_append_of_not_mem _ _ _ (fun x hx hxe => by subst hxe; exact hpre hx)]
    simp only [List.cons_append, idxOfChar_cons_self, Option.map_some]
    simp
  have hrev : (pre ++ ('\x7b' :: (mid ++ ['\x7d'])) ++ post).reverse =
      post.reverse ++ ('\x7d' :: (mid.reverse ++ ('\x7b' :: pre.reverse))) := by
    simp [List.reverse_append]
  have hidxrev : idxOfChar '\x7d' (pre ++ ('\x7b' :: (mid ++ ['\x7d'])) ++ post).reverse =
      some post.length := by
    rw [hrev, idxOfChar_append_of_not_mem _ _ _
      (fun x hx hxe => by subst hxe; exact hpost (List.mem_reverse.mp hx)),
      idxOfChar_cons_self]
    simp
  have hlen : (pre ++ ('\x7b' :: (mid ++ ['\x7d'])) ++ post).length =
      pre.length + mid.length + 2 + post.length := by
    simp
    omega
  have hei : lastIdxOfChar '\x7d' (pre ++ ('\x7b' :: (mid ++ ['\x7d'])) ++ post) =
      some (pre.length + mid.length + 1) := by
    rw [lastIdxOfChar_eq _ _ _ hidxrev, hlen]
    congr 1
    omega
  rw [braceSlice_of_some _ _ _ hsi hei, if_neg (by omega)]
  have harith : pre.length + mid.length + 1 + 1 - pre.length = mid.length + 2 := by omega
  rw [harith, hassoc, List.drop_left]
  have hslen : mid.length + 2 = ('\x7b' :: (mid ++ ['\x7d'])).length := by simp
  rw [hslen, List.take_left]

lemma extractJSON_window (pre mid post : List Char)
    (hmid : '\x60' ∉ mid) (hpre7b : '\x7b' ∉ pre) (hpre60 : '\x60' ∉ pre)
    (hpost7d : '\x7d' ∉ post) (hpost60 : '\x60' ∉ post) :
    extractJSON (pre ++ ('\x7b' :: (mid ++ ['\x7d'])) ++ post) =
      '\x7b' :: (mid ++ ['\x7d']) := by
  have hnb : ∀ x ∈ pre ++ ('\x7b' :: (mid ++ ['\x7d'])) ++ post, x ≠ '\x60' := by
    intro x hx hxe
    subst hxe
    rcases List.mem_append.mp hx with h | h
    · rcases List.mem_append.mp h with h2 | h2
      · exact hpre60 h2
      · rcases List.mem_cons.mp h2 with h3 | h3
        · exact absurd h3 (by decide)
        · rcases List.mem_append.mp h3 with h4 | h4
          · exact hmid h4
          · exact absurd (List.mem_singleton.mp h4) (by decide)
    · exact hpost60 h
  have e1 : ("```json".data : List Char) = '\x60' :: "``json".data := rfl
  have e2 : ("```".data : List Char) = '\x60' :: "``".data := rfl
  rw [extractJSON, e1]
  rw [goReplaceAll_id_of_not_mem _ _ _ _ hnb]
  rw [e2, goReplaceAll_id_of_not_mem _ _ _ _ hnb]
  exact braceSlice_window pre mid post hpre7b hpost7d

lemma extractJSON_fenced (mid : List Char) (hmid : '\x60' ∉ mid) :
    extractJSON ("```json\n".data ++ ('\x7b' :: (mid ++ ['\x7d'])) ++ "\n```".data) =
      '\x7b' :: (mid ++ ['\x7d']) := by
  have hs60 : ∀ x ∈ '\x7b' :: (mid ++ ['\x7d']), x ≠ '\x60' := by
    intro x hx hxe
    subst hxe
    rcases List.mem_cons.mp hx with h | h
    · exact absurd h (by decide)
    · rcases List.mem_append.mp h with h2 | h2
      · exact hmid h2
      · exact absurd (List.mem_singleton.mp h2) (by decide)
  have e1 : ("```json".data : List Char) = '\x60' :: "``json".data := rfl
  have e2 : ("```".data : List Char) = '\x60' :: "``".data := rfl
  have ht : "```json\n".data ++ ('\x7b' :: (mid ++ ['\x7d'])) ++ "\n```".data =
      "```json".data ++ ('\n' :: (('\x7b' :: (mid ++ ['\x7d'])) ++ "\n```".data)) := by
    simp
  rw [extractJSON, ht]
  rw [goReplaceAll_cons_match _ _ _ (by decide)]
  rw [e1, goReplaceAll_cons_skip _ _ _ _ _ (by decide)]
  rw [goReplaceAll_append_skip _ _ _ _ _ (fun x hx => hs60 x hx)]
  have hc1 : goReplaceAll ('\x60' :: "``json".data) [] "\n```".data = "\n```".data := by decide
  rw [hc1, List.nil_append]
  rw [e2, goReplaceAll_cons_skip _ _ _ _ _ (by decide)]
  rw [goReplaceAll_append_skip _ _ _ _ _ (fun x hx => hs60 x hx)]
  have hc2 : goReplaceAll ('\x60' :: "``".data) [] "\n```".data = ['\n'] := by decide
  rw [hc2]
  have hsplit : ('\n' :: (('\x7b' :: (mid ++ ['\x7d'])) ++ ['\n'])) =
      ['\n'] ++ ('\x7b' :: (mid ++ ['\x7d'])) ++ ['\n'] := by simp
  rw [hsplit]
  exact braceSlice_window ['\n'] mid ['\n'] (by decide) (by decide)

lemma data_append (a b : String) : (a ++ b).data = a.data ++ b.data := by
  cases a
  cases b
  rfl

lemma ne_of_head_ne (a b : String) (h : a.data.head? ≠ b.data.head?) : a ≠ b := by
  intro he
  subst he
  exact h rfl

lemma head_append_of_ne_nil (a b : String) (c : Char) (h : a.data.head? = some c) :
    ((a ++ b).data).head? = some c := by
  rw [data_append]
  cases ha : a.data with
  | nil => rw [ha] at h; simp at h
  | cons x xs =>
    rw [ha] at h
    simp at h
    simp [h]

example (n : Nat) : "quiz has empty question field" ≠ "expected 4 choices, got " ++ toString n := by
  apply ne_of_head_ne
  rw [head_append_of_ne_nil _ _ 'e' (by decide)]
  decide

example (i : Int) : "quiz has empty question field" ≠ "answer index " ++ toString i ++ " out of range" := by
  apply ne_of_head_ne
  rw [head_append_of_ne_nil _ _ 'a' (head_append_of_ne_nil _ _ 'a' (by decide))]
  decide

example (n : Nat) (i : Int) :
    "expected 4 choices, got " ++ toString n ≠ "answer index " ++ toString i ++ " out of range" := by
  apply ne_of_head_ne
  rw [head_append_of_ne_nil _ _ 'e' (by decide),
    head_append_of_ne_nil _ _ 'a' (head_append_of_ne_nil _ _ 'a' (by decide))]
  decide

lemma conflictDelay_bounds (n : Nat) :
    5000 ≤ conflictDelay n ∧ conflictDelay n ≤ 60000 := by
  induction n with
  | zero => exact ⟨le_rfl, by norm_num [conflictDelay, baseDelayMs]⟩
  | succ m ih =>
    simp only [conflictDelay, runFetchStep, maxDelayMs]
    split <;> omega

lemma fanout_attempts (q : QuizData) (send : Int → SendOutcome) :
    ∀ (ch : List Int) (acc : (String → Option PollData) × List Int),
      (ch.foldl (fanoutStep q send) acc).2 = acc.2 ++ ch := by
  intro ch
  induction ch with
  | nil => simp
  | cons c rest ih =>
    intro acc
    rw [List.foldl_cons, ih]
    simp [fanoutStep]

lemma fanout_preserve (q : QuizData) (send : Int → SendOutcome) (pid : String) :
    ∀ (ch : List Int) (acc : (String → Option PollData) × List Int),
      (∀ c ∈ ch, ∀ m, send c ≠ .sent pid m) →
      (ch.foldl (fanoutStep q send) acc).1 pid = acc.1 pid := by
  intro ch
  induction ch with
  | nil => intro acc _; rfl
  | cons c rest ih =>
    intro acc hno
    rw [List.foldl_cons, ih _ (fun c2 h2 m => hno c2 (by simp [h2]) m)]
    cases hsc : send c with
    | err => simp [fanoutStep, hsc]
    | sentNoPoll mid => simp [fanoutStep, hsc]
    | sent pid2 mid =>
      have hne : pid ≠ pid2 := by
        intro he
        exact hno c (by simp) mid (by rw [hsc, he])
      simp [fanoutStep, hsc, hne]

lemma fanout_lookup (q : QuizData) (send : Int → SendOutcome) (pid : String)
    (chat : Int) (mid : Int) :
    ∀ (ch : List Int) (acc : (String → Option PollData) × List Int),
      chat ∈ ch → send chat = .sent pid mid →
      (∀ c ∈ ch, ∀ m, send c = .sent pid m → c = chat) →
      (ch.foldl (fanoutStep q send) acc).1 pid =
        some ⟨chat, mid, q.AnswerIndex, q.Choices⟩ := by
  intro ch
  induction ch with
  | nil => intro acc h; simp at h
  | cons c rest ih =>
    intro acc hmem hsend huniq
    by_cases hrest : chat ∈ rest
    · rw [List.foldl_cons]
      exact ih _ hrest hsend (fun c2 h2 m hm => huniq c2 (by simp [h2]) m hm)
    · have hc : c = chat := by
        rcases List.mem_cons.mp hmem with h | h
        · exact h.symm
        · exact absurd h hrest
      subst hc
      rw [List.foldl_cons]
      rw [fanout_preserve q send pid rest _ ?hno]
      case hno =>
        intro c2 h2 m hm
        exact absurd (huniq c2 (by simp [h2]) m hm) (fun he => hrest (he ▸ h2))
      simp [fanoutStep, hsend]

lemma fanout_new_entries (q : QuizData) (send : Int → SendOutcome) (pid : String) :
    ∀ (ch : List Int) (acc : (String → Option PollData) × List Int),
      (ch.foldl (fanoutStep q send) acc).1 pid = acc.1 pid ∨
      ∃ chat mid, (ch.foldl (fanoutStep q send) acc).1 pid =
        some ⟨chat, mid, q.AnswerIndex, q.Choices⟩ := by
  intro ch
  induction ch with
  | nil => intro acc; exact Or.inl rfl
  | cons c rest ih =>
    intro acc
    rw [List.foldl_cons]
    rcases ih (fanoutStep q send acc c) with h | h
    · rw [h]
      cases hsc : send c with
      | err => simp [fanoutStep, hsc]
      | sentNoPoll mid => simp [fanoutStep, hsc]
      | sent pid2 mid =>
        by_cases he : pid = pid2
        · subst he
          refine Or.inr ⟨c, mid, ?_⟩
          simp [fanoutStep, hsc]
        · simp [fanoutStep, hsc, he]
    · exact Or.inr h

/-- C1, counterexample.  The claim says only the first chunk carries the
reply-to linkage; in the code (`sendChunks`, `sendResponse`) every chunk sets
`ReplyToMessageID` to the original message's id.  At the claim's own input —
a 9000-byte text sent as a reply to message 7 — all three chunks carry the
linkage 7. -/
theorem sendChunks_only_first_reply_counterexample :
    (sendChunks 1 (List.replicate 9000 97) 7).map ChunkMsg.replyTo = [7, 7, 7] ∧
    ¬(∀ m ∈ (sendChunks 1 (List.replicate 9000 97) 7).drop 1, m.replyTo = 0) := by
  rw [sendChunks_9000]
  refine ⟨rfl, fun h => ?_⟩
  have := h ⟨1, List.replicate 4096 97, 7⟩ (List.mem_cons_self _ _)
  exact absurd this (by decide)

/-- C1, amended.  Every outbound text is split into consecutive chunks of at
most 4096 bytes each, sent in order (their concatenation is the original
text), and every chunk — not only the first — carries the reply-to linkage;
a text of length 9000 is sent as exactly three chunks of sizes 4096, 4096
and 808. -/
theorem sendChunks_chunking_amended :
    (∀ (c r : Int) (t : List Nat),
      ((sendChunks c t r).map ChunkMsg.text).flatten = t ∧
      ∀ m ∈ sendChunks c t r, m.text.length ≤ 4096 ∧ m.replyTo = r) ∧
    (∀ (c r : Int),
      (sendChunks c (List.replicate 9000 97) r).map (fun m => m.text.length) =
        [4096, 4096, 808] ∧
      ∀ m ∈ sendChunks c (List.replicate 9000 97) r, m.replyTo = r) := by
  constructor
  · intro c r t
    exact ⟨sendChunks_join c r t, fun m hm =>
      ⟨(sendChunks_mem c r t m hm).1, (sendChunks_mem c r t m hm).2.1⟩⟩
  · intro c r
    rw [sendChunks_9000]
    constructor
    · simp only [List.map_cons, List.map_nil, List.length_replicate]
    · intro m hm
      simp only [List.mem_cons, List.not_mem_nil, or_false] at hm
      rcases hm with h | h | h <;> subst h <;> rfl

/-- C1, witness for the amended theorem at a concrete input. -/
theorem sendChunks_chunking_amended_witness :
    ((sendChunks 2 [10, 20] 5).map ChunkMsg.text).flatten = [10, 20] ∧
    (⟨2, [10, 20], 5⟩ : ChunkMsg).text.length ≤ 4096 ∧
    (⟨2, [10, 20], 5⟩ : ChunkMsg).replyTo = 5 := by
  have h := sendChunks_chunking_amended.1 2 5 [10, 20]
  exact ⟨h.1, (h.2 ⟨2, [10, 20], 5⟩ (by decide)).1, (h.2 ⟨2, [10, 20], 5⟩ (by decide)).2⟩

/-- C10.  Concatenating the chunks in order reconstructs the original text,
each chunk holds at most 4096 bytes, an empty text sends zero messages, and
the split is at byte offsets: a two-byte UTF-8 character (`[206, 177]`)
straddling the 4096-byte boundary is divided across two chunks. -/
theorem sendChunks_reconstruct_spec :
    (∀ (c r : Int) (t : List Nat),
      ((sendChunks c t r).map ChunkMsg.text).flatten = t ∧
      (∀ m ∈ sendChunks c t r, m.text.length ≤ 4096) ∧
      (t = [] → sendChunks c t r = [])) ∧
    (sendChunks 1 (List.replicate 4095 97 ++ [206, 177]) 0).map ChunkMsg.text =
      [List.replicate 4095 97 ++ [206], [177]] := by
  constructor
  · intro c r t
    refine ⟨sendChunks_join c r t, fun m hm => (sendChunks_mem c r t m hm).1, ?_⟩
    rintro rfl
    rfl
  · rw [sendChunks_cons _ _ _ (List.ne_nil_of_length_pos
      (by rw [List.length_append, List.length_replicate]; norm_num))]
    rw [List.take_append_eq_append_take, List.drop_append_eq_append_drop,
      List.take_replicate, List.drop_replicate, List.length_replicate]
    norm_num
    rfl

/-- C10, witness at concrete inputs. -/
theorem sendChunks_reconstruct_spec_witness :
    sendChunks 3 [] 9 = [] ∧
    ((sendChunks 3 [1, 2, 3] 9).map ChunkMsg.text).flatten = [1, 2, 3] ∧
    (⟨3, [1, 2, 3], 9⟩ : ChunkMsg).text.length ≤ 4096 := by
  refine ⟨(sendChunks_reconstruct_spec.1 3 9 []).2.2 rfl,
    (sendChunks_reconstruct_spec.1 3 9 [1, 2, 3]).1,
    (sendChunks_reconstruct_spec.1 3 9 [1, 2, 3]).2.1 ⟨3, [1, 2, 3], 9⟩ (by decide)⟩

/-- C4, amended.  For every quiz JSON object free of backtick characters
(written as the brace-delimited character list), `extractJSON` is the
identity on the bare JSON — hence any decoder yields the same Quiz as direct
decoding — and returns the same JSON when it is wrapped in markdown code
fences or surrounded by stray prose that contains no brace or backtick. -/
theorem extractJSON_wrapping_amended (mid pre post : List Char)
    (hmid : '\x60' ∉ mid) (hpre7b : '\x7b' ∉ pre) (hpre60 : '\x60' ∉ pre)
    (hpost7d : '\x7d' ∉ post) (hpost60 : '\x60' ∉ post)
    (decode : List Char → Option QuizData) :
    extractJSON ('\x7b' :: (mid ++ ['\x7d'])) = '\x7b' :: (mid ++ ['\x7d'])
    ∧ decode (extractJSON ('\x7b' :: (mid ++ ['\x7d']))) =
        decode ('\x7b' :: (mid ++ ['\x7d']))
    ∧ extractJSON (pre ++ ('\x7b' :: (mid ++ ['\x7d'])) ++ post) =
        '\x7b' :: (mid ++ ['\x7d'])
    ∧ extractJSON ("```json\n".data ++ ('\x7b' :: (mid ++ ['\x7d'])) ++ "\n```".data) =
        '\x7b' :: (mid ++ ['\x7d']) := by
  have hclean : extractJSON ('\x7b' :: (mid ++ ['\x7d'])) = '\x7b' :: (mid ++ ['\x7d']) := by
    have := extractJSON_window [] mid [] hmid (by simp) (by simp) (by simp) (by simp)
    simpa using this
  exact ⟨hclean, by rw [hclean],
    extractJSON_window pre mid post hmid hpre7b hpre60 hpost7d hpost60,
    extractJSON_fenced mid hmid⟩

/-- C4, witness: the spec's own example JSON, bare and surrounded by
prose. -/
theorem extractJSON_wrapping_amended_witness :
    extractJSON "\x7b\"question\":\"Q\",\"choices\":[\"a\",\"b\",\"c\",\"d\"],\"answer_index\":2\x7d".data =
      "\x7b\"question\":\"Q\",\"choices\":[\"a\",\"b\",\"c\",\"d\"],\"answer_index\":2\x7d".data := by
  have h := extractJSON_wrapping_amended
    "\"question\":\"Q\",\"choices\":[\"a\",\"b\",\"c\",\"d\"],\"answer_index\":2".data
    "Here is your quiz: ".data " Enjoy!".data
    (by decide) (by decide) (by decide) (by decide) (by decide) (fun _ => none)
  exact h.1

/-- C4, counterexample.  The claim quantifies over every valid quiz JSON
object and arbitrary stray prose.  `extractJSON` removes every "```"
occurrence, including inside JSON string values, so a valid quiz JSON whose
question contains three backticks is altered by extraction (the real decoder
then yields a Quiz with question "ab" instead of "a```b"); and stray prose
containing a brace shifts the extracted window, so extraction no longer
returns the JSON object. -/
theorem extractJSON_counterexample :
    (extractJSON "\x7b\"question\":\"a```b\",\"choices\":[\"a\",\"b\",\"c\",\"d\"],\"answer_index\":2\x7d".data ≠
      "\x7b\"question\":\"a```b\",\"choices\":[\"a\",\"b\",\"c\",\"d\"],\"answer_index\":2\x7d".data) ∧
    (extractJSON "\x7b\"question\":\"a```b\",\"choices\":[\"a\",\"b\",\"c\",\"d\"],\"answer_index\":2\x7d".data =
      "\x7b\"question\":\"ab\",\"choices\":[\"a\",\"b\",\"c\",\"d\"],\"answer_index\":2\x7d".data) ∧
    (extractJSON ("Note \x7bthis\x7d: ".data ++
        "\x7b\"question\":\"Q\",\"choices\":[\"a\",\"b\",\"c\",\"d\"],\"answer_index\":2\x7d".data) ≠
      "\x7b\"question\":\"Q\",\"choices\":[\"a\",\"b\",\"c\",\"d\"],\"answer_index\":2\x7d".data) := by
  refine ⟨by decide, by decide, by decide⟩

/-- C3.  The quiz extractor rejects a structurally invalid parsed quiz
with a distinguishable error per cause: one error for an empty question, a
different one when the choice count is not 4, a different one when the
answer index is outside [0,3]; when a cause is the failing one it is
identifiable from the returned error (the three error strings are pairwise
distinct for every payload), and a quiz passing all three checks is
accepted. -/
theorem generateQuizValidate_distinguishable (q : QuizData) :
    (q.Question = "" →
      generateQuizValidate q = .error "quiz has empty question field") ∧
    (q.Question ≠ "" → q.Choices.length ≠ 4 →
      generateQuizValidate q =
        .error ("expected 4 choices, got " ++ toString q.Choices.length)) ∧
    (q.Question ≠ "" → q.Choices.length = 4 → (q.AnswerIndex < 0 ∨ q.AnswerIndex > 3) →
      generateQuizValidate q =
        .error ("answer index " ++ toString q.AnswerIndex ++ " out of range")) ∧
    (q.Question ≠ "" → q.Choices.length = 4 → 0 ≤ q.AnswerIndex → q.AnswerIndex ≤ 3 →
      generateQuizValidate q = .ok q) ∧
    (∀ (n : Nat) (i : Int),
      "quiz has empty question field" ≠ "expected 4 choices, got " ++ toString n ∧
      "quiz has empty question field" ≠
        "answer index " ++ toString i ++ " out of range" ∧
      "expected 4 choices, got " ++ toString n ≠
        "answer index " ++ toString i ++ " out of range") := by
  refine ⟨fun h1 => by simp [generateQuizValidate, h1],
    fun h1 h2 => by simp [generateQuizValidate, h1, h2],
    fun h1 h2 h3 => by simp [generateQuizValidate, h1, h2, h3],
    fun h1 h2 h3 h4 => by
      simp [generateQuizValidate, h1, h2]
      omega,
    fun n i => ⟨?_, ?_, ?_⟩⟩
  · apply ne_of_head_ne
    rw [head_append_of_ne_nil _ _ 'e' (by decide)]
    decide
  · apply ne_of_head_ne
    rw [head_append_of_ne_nil _ _ 'a' (head_append_of_ne_nil _ _ 'a' (by decide))]
    decide
  · apply ne_of_head_ne
    rw [head_append_of_ne_nil _ _ 'e' (by decide),
      head_append_of_ne_nil _ _ 'a' (head_append_of_ne_nil _ _ 'a' (by decide))]
    decide

/-- C3, witness at the three failing quizzes and one valid quiz. -/
theorem generateQuizValidate_distinguishable_witness :
    generateQuizValidate ⟨"", ["a", "b", "c", "d"], 2⟩ =
      .error "quiz has empty question field" ∧
    generateQuizValidate ⟨"Q", ["a"], 2⟩ =
      .error ("expected 4 choices, got " ++ toString (["a"] : List String).length) ∧
    generateQuizValidate ⟨"Q", ["a", "b", "c", "d"], 9⟩ =
      .error ("answer index " ++ toString (9 : Int) ++ " out of range") ∧
    generateQuizValidate ⟨"Q", ["a", "b", "c", "d"], 2⟩ =
      .ok ⟨"Q", ["a", "b", "c", "d"], 2⟩ ∧
    "quiz has empty question field" ≠
      "expected 4 choices, got " ++ toString (1 : Nat) := by
  refine ⟨(generateQuizValidate_distinguishable _).1 rfl,
    (generateQuizValidate_distinguishable ⟨"Q", ["a"], 2⟩).2.1 (by decide) (by decide),
    (generateQuizValidate_distinguishable ⟨"Q", ["a", "b", "c", "d"], 9⟩).2.2.1
      (by decide) (by decide) (by decide),
    (generateQuizValidate_distinguishable ⟨"Q", ["a", "b", "c", "d"], 2⟩).2.2.2.1
      (by decide) (by decide) (by decide) (by decide),
    ((generateQuizValidate_distinguishable ⟨"Q", ["a"], 2⟩).2.2.2.2 1 9).1⟩

/-- C6.  For a poll-answer event whose poll id is registered, the loop
sends exactly one message: the reveal naming the 1-indexed correct option
(`correct_index + 1`) with that option's text, addressed to the stored chat
as a reply to the stored anchor message id, and then removes the entry from
the registry. -/
theorem handlePollAnswer_reveal_and_remove (polls : String → Option PollData)
    (pid : String) (pd : PollData) (hfind : polls pid = some pd)
    (h0 : 0 ≤ pd.CorrectOption) (hlt : pd.CorrectOption.toNat < pd.Options.length) :
    handlePollAnswer polls pid =
      some (fun k => if k = pid then none else polls k,
        [⟨pd.ChatID,
          "✅ The correct answer is option " ++ toString (pd.CorrectOption + 1) ++ ": " ++
            pd.Options.getD pd.CorrectOption.toNat "",
          pd.MessageID⟩]) ∧
    (fun k => if k = pid then none else polls k) pid = none := by
  constructor
  · simp only [handlePollAnswer, hfind]
    rw [if_pos ⟨h0, hlt⟩, revealText]
  · simp

/-- C6, witness: registry holding poll "p1" with correct option 2 of
["w","x","y","z"]; the reveal names option 3, "y". -/
theorem handlePollAnswer_reveal_and_remove_witness :
    handlePollAnswer (fun k => if k = "p1" then some ⟨5, 10, 2, ["w", "x", "y", "z"]⟩ else none) "p1" =
      some (fun k => if k = "p1" then none
              else (fun k => if k = "p1" then some ⟨5, 10, 2, ["w", "x", "y", "z"]⟩ else none) k,
        [⟨5, "✅ The correct answer is option 3: y", 10⟩]) := by
  have h := handlePollAnswer_reveal_and_remove
    (fun k => if k = "p1" then some ⟨5, 10, 2, ["w", "x", "y", "z"]⟩ else none) "p1"
    ⟨5, 10, 2, ["w", "x", "y", "z"]⟩ rfl (by decide) (by decide)
  exact h.1

/-- C5.  A poll-answer event for an unknown poll id is a safe no-op (no
message sent, registry unchanged); and after an event for a known id is
processed the entry is gone, so a second identical event is also a no-op —
the entry is removed exactly once. -/
theorem handlePollAnswer_unknown_and_repeat (polls : String → Option PollData)
    (pid : String) :
    (polls pid = none → handlePollAnswer polls pid = some (polls, [])) ∧
    (∀ pd, polls pid = some pd → 0 ≤ pd.CorrectOption →
      pd.CorrectOption.toNat < pd.Options.length →
      ∀ polls2 msgs, handlePollAnswer polls pid = some (polls2, msgs) →
        polls2 pid = none ∧ handlePollAnswer polls2 pid = some (polls2, [])) := by
  constructor
  · intro h
    rw [handlePollAnswer, h]
  · intro pd hfind h0 hlt polls2 msgs hrun
    simp only [handlePollAnswer, hfind] at hrun
    rw [if_pos ⟨h0, hlt⟩] at hrun
    have hfun : polls2 = fun k => if k = pid then none else polls k := by
      have := (Option.some.injEq _ _).mp hrun
      exact (congrArg Prod.fst this).symm
    have hnone : polls2 pid = none := by rw [hfun]; simp
    exact ⟨hnone, by rw [handlePollAnswer, hnone]⟩

/-- C5, witness: an unknown id on the empty registry, and a second
delivery of an already-processed answer. -/
theorem handlePollAnswer_unknown_and_repeat_witness :
    handlePollAnswer (fun _ => none) "p9" = some (fun _ => none, []) ∧
    handlePollAnswer (fun k => if k = "p1" then none
        else (fun k => if k = "p1" then some (⟨5, 10, 2, ["w", "x", "y", "z"]⟩ : PollData) else none) k) "p1" =
      some ((fun k => if k = "p1" then none
        else (fun k => if k = "p1" then some (⟨5, 10, 2, ["w", "x", "y", "z"]⟩ : PollData) else none) k), []) := by
  constructor
  · exact (handlePollAnswer_unknown_and_repeat (fun _ => none) "p9").1 rfl
  · refine ((handlePollAnswer_unknown_and_repeat
      (fun k => if k = "p1" then some ⟨5, 10, 2, ["w", "x", "y", "z"]⟩ else none) "p1").2
      ⟨5, 10, 2, ["w", "x", "y", "z"]⟩ rfl (by decide) (by decide) _ _ rfl).2

/-- C7.  The conflict retry delay starts at the 5s seed, strictly
increases by doubling up to the 60s ceiling, then plateaus at the ceiling;
a successful fetch resets the delay to the seed; and every conflict
iteration clears the stale webhook subscription before sleeping. -/
theorem runFetchStep_backoff_spec :
    conflictDelay 0 = 5000 ∧
    (∀ n, 5000 ≤ conflictDelay n ∧ conflictDelay n ≤ 60000) ∧
    (∀ n, conflictDelay n < 60000 → conflictDelay n < conflictDelay (n + 1)) ∧
    (∀ n, conflictDelay n < 60000 → 2 * conflictDelay n ≤ 60000 →
      conflictDelay (n + 1) = 2 * conflictDelay n) ∧
    (∀ n, conflictDelay n = 60000 → conflictDelay (n + 1) = 60000) ∧
    (∀ d, (runFetchStep d .success).1 = 5000) ∧
    (∀ d, (runFetchStep d .failure).1 = d) ∧
    (∀ d, (runFetchStep d .conflict).2 = [.clearWebhook, .sleepMs d]) := by
  refine ⟨rfl, conflictDelay_bounds, fun n h => ?_, fun n h h2 => ?_, fun n h => ?_,
    fun d => rfl, fun d => rfl, fun d => rfl⟩
  · have hb := conflictDelay_bounds n
    simp only [conflictDelay, runFetchStep, maxDelayMs]
    split <;> omega
  · simp only [conflictDelay, runFetchStep, maxDelayMs]
    split <;> omega
  · simp only [conflictDelay, runFetchStep, maxDelayMs]
    split <;> omega

/-- C7, witness: concrete delays 5000 < 10000, the plateau at 60000, and
the reset after success. -/
theorem runFetchStep_backoff_spec_witness :
    conflictDelay 0 < conflictDelay 1 ∧
    conflictDelay 1 = 10000 ∧
    conflictDelay 5 = 60000 ∧
    conflictDelay 6 = 60000 ∧
    (runFetchStep 37 .success).1 = 5000 ∧
    (runFetchStep 37 .conflict).2 = [.clearWebhook, .sleepMs 37] := by
  refine ⟨runFetchStep_backoff_spec.2.2.1 0 (by decide), by decide, by decide,
    runFetchStep_backoff_spec.2.2.2.2.1 5 (by decide),
    runFetchStep_backoff_spec.2.2.2.2.2.1 37,
    runFetchStep_backoff_spec.2.2.2.2.2.2.2 37⟩

/-- C8.  A scheduled tick with no active channel is a no-op (and makes no
generation call); a tick with active channels makes exactly one generation
call; on a valid quiz a send is attempted to every active channel in order
regardless of individual failures; each successful send registers its own
entry keyed by the poll id the platform returned for that send (ids being
distinct per send); and every newly registered entry carries the shared
`correct_index` and `choices`. -/
theorem sendHourlyPoll_broadcast_spec :
    (∀ gen parse send polls,
      sendHourlyPoll [] gen parse send polls = ⟨polls, 0, []⟩) ∧
    (∀ channels gen parse send polls, channels ≠ [] →
      (sendHourlyPoll channels gen parse send polls).genCalls = 1) ∧
    (∀ channels raw q parse send polls, channels ≠ [] → parse raw = some q →
      ¬(q.Question = "" ∨ q.Choices.length ≠ 4 ∨ q.AnswerIndex < 0 ∨ q.AnswerIndex > 3) →
      (sendHourlyPoll channels (some raw) parse send polls).attempts = channels) ∧
    (∀ channels raw q parse send polls pid chat mid, channels ≠ [] → parse raw = some q →
      ¬(q.Question = "" ∨ q.Choices.length ≠ 4 ∨ q.AnswerIndex < 0 ∨ q.AnswerIndex > 3) →
      chat ∈ channels → send chat = .sent pid mid →
      (∀ c ∈ channels, ∀ m, send c = .sent pid m → c = chat) →
      (sendHourlyPoll channels (some raw) parse send polls).polls pid =
        some ⟨chat, mid, q.AnswerIndex, q.Choices⟩) ∧
    (∀ channels raw q parse send polls pid2 pd, channels ≠ [] → parse raw = some q →
      ¬(q.Question = "" ∨ q.Choices.length ≠ 4 ∨ q.AnswerIndex < 0 ∨ q.AnswerIndex > 3) →
      polls pid2 = none →
      (sendHourlyPoll channels (some raw) parse send polls).polls pid2 = some pd →
      pd.CorrectOption = q.AnswerIndex ∧ pd.Options = q.Choices) := by
  refine ⟨fun gen parse send polls => rfl, ?_, ?_, ?_, ?_⟩
  · intro ch gen parse send polls hne
    have hlen : ¬ch.length = 0 := fun h => hne (List.length_eq_zero.mp h)
    cases gen with
    | none => simp [sendHourlyPoll, hlen]
    | some raw =>
      cases hp : parse raw with
      | none => simp [sendHourlyPoll, hlen, hp]
      | some q =>
        simp only [sendHourlyPoll, hlen, if_false, hp]
        split <;> rfl
  · intro ch raw q parse send polls hne hp hv
    have hlen : ¬ch.length = 0 := fun h => hne (List.length_eq_zero.mp h)
    simp only [sendHourlyPoll, hlen, if_false, hp]
    rw [if_neg hv]
    simpa using fanout_attempts q send ch (polls, [])
  · intro ch raw q parse send polls pid chat mid hne hp hv hmem hsend huniq
    have hlen : ¬ch.length = 0 := fun h => hne (List.length_eq_zero.mp h)
    simp only [sendHourlyPoll, hlen, if_false, hp]
    rw [if_neg hv]
    exact fanout_lookup q send pid chat mid ch (polls, []) hmem hsend huniq
  · intro ch raw q parse send polls pid2 pd hne hp hv hpre hpost
    have hlen : ¬ch.length = 0 := fun h => hne (List.length_eq_zero.mp h)
    simp only [sendHourlyPoll, hlen, if_false, hp] at hpost
    rw [if_neg hv] at hpost
    have hpost2 : (List.foldl (fanoutStep q send) (polls, []) ch).1 pid2 = some pd := hpost
    rcases fanout_new_entries q send pid2 ch (polls, []) with h | ⟨chat, mid, h⟩
    · rw [h] at hpost2
      have hcontr : polls pid2 = some pd := hpost2
      rw [hpre] at hcontr
      exact absurd hcontr (by simp)
    · rw [h] at hpost2
      have := (Option.some.injEq _ _).mp hpost2
      rw [← this]
      exact ⟨rfl, rfl⟩

/-- C8, witness: channels [1,2] where the send to 1 fails and the send to
2 succeeds with poll id "p2": both attempts happen and "p2" is
registered. -/
theorem sendHourlyPoll_broadcast_spec_witness :
    (sendHourlyPoll [] (some "raw") (fun _ => none) (fun _ => .err) (fun _ => none)) =
      ⟨fun _ => none, 0, []⟩ ∧
    (sendHourlyPoll [1, 2] (some "raw")
        (fun _ => some ⟨"Q", ["a", "b", "c", "d"], 0⟩)
        (fun c => if c = 2 then .sent "p2" 9 else .err) (fun _ => none)).attempts = [1, 2] ∧
    (sendHourlyPoll [1, 2] (some "raw")
        (fun _ => some ⟨"Q", ["a", "b", "c", "d"], 0⟩)
        (fun c => if c = 2 then .sent "p2" 9 else .err) (fun _ => none)).polls "p2" =
      some ⟨2, 9, 0, ["a", "b", "c", "d"]⟩ := by
  refine ⟨sendHourlyPoll_broadcast_spec.1 (some "raw") (fun _ => none) (fun _ => .err) (fun _ => none),
    sendHourlyPoll_broadcast_spec.2.2.1 [1, 2] "raw" ⟨"Q", ["a", "b", "c", "d"], 0⟩
      _ _ _ (by decide) rfl (by decide),
    sendHourlyPoll_broadcast_spec.2.2.2.1 [1, 2] "raw" ⟨"Q", ["a", "b", "c", "d"], 0⟩
      _ _ _ "p2" 2 9 (by decide) rfl (by decide) (by decide) (by decide) ?_⟩
  intro c hc m hm
  rcases List.mem_cons.mp hc with h | h
  · subst h
    simp at hm
  · exact List.mem_singleton.mp h

/-- C2, code bug.  The `sendHourlyPoll` revision in main.go (706-758)
registers the parsed quiz without validating it: with one active channel
and a generated quiz of 2 choices and answer index 7, the registry receives
an entry whose `CorrectOption` is out of the bounds of its `Options` — the
part_001 revision of the same function rejects the same quiz, and main.go's
own answer handler would panic on this entry (`handlePollAnswer` returns
`none`, the panic marker). -/
theorem sendHourlyPoll_validation_code_bug :
    (sendHourlyPollMain [42] (some "raw") (fun _ => some ⟨"Q", ["a", "b"], 7⟩)
        (fun _ => .sent "p1" 99) (fun _ => none)).polls "p1" =
      some ⟨42, 99, 7, ["a", "b"]⟩ ∧
    ¬((0 : Int) ≤ 7 ∧ (7 : Int).toNat < (["a", "b"] : List String).length) ∧
    (sendHourlyPoll [42] (some "raw") (fun _ => some ⟨"Q", ["a", "b"], 7⟩)
        (fun _ => .sent "p1" 99) (fun _ => none)).polls "p1" = none ∧
    handlePollAnswer (fun k => if k = "p1" then some ⟨42, 99, 7, ["a", "b"]⟩ else none) "p1" =
      none := by
  refine ⟨by decide, by decide, by decide, rfl⟩

end ChatBuddy
